import Mathlib

/-!
Barragoon engine: shallow embedding and verification.

This file is a shallow embedding of the Barragoon rules engine
(`src/navigation.rs`, `src/tiles.rs`, `src/pieces/barragoon.rs`, and the
complete engine snapshot `src/bin/cubekill/main.rs`; `src/main.rs` is a
partially edited duplicate of the same engine and where the two differ
the complete, compiling snapshot is followed, as the repository keeps
several historical copies of the engine).

Conventions of the embedding:
* `u8` coordinates are `Nat`s and `i8` deltas are `Int`s; the cast chain
  `(x as i8 + d) as u8` of `impl Add<PositionDelta> for Coordinate` is
  modelled as arithmetic modulo 256 (release, i.e. wrapping, semantics).
* The board `[[SquareContent; 7]; 9]` is a function `Fin 9 → Fin 7 → SquareContent`;
  out-of-bounds reads/writes (which would panic in Rust and are all
  bounds-guarded in the engine) read `Empty` and write nothing.
* Fallible parsing returns an explicit result type; the two reachable
  `panic` sites of `from_fen` (negative row pointer, square written to a
  full row) are modelled by a dedicated `crash` result.
-/

namespace Barragoon

/-- Embeds `Orientation`/`Direction` from `src/navigation.rs` (declaration order
North, West, South, East, which is the `EnumIter` iteration order). -/
inductive Direction where
  | North
  | West
  | South
  | East
deriving DecidableEq, Repr, Fintype

/-- Embeds `Orientation::turn_left` from `src/navigation.rs`. -/
def Direction.turn_left : Direction → Direction
  | .North => .West
  | .West => .South
  | .South => .East
  | .East => .North

/-- Embeds `Orientation::turn_right` from `src/navigation.rs`. -/
def Direction.turn_right : Direction → Direction
  | .North => .East
  | .East => .South
  | .South => .West
  | .West => .North

/-- Embeds `PositionDelta` from `src/navigation.rs` (`i8` components as `Int`). -/
structure PositionDelta where
  rank_delta : Int
  file_delta : Int
deriving DecidableEq, Repr

/-- Embeds `PositionDelta::zero`. -/
def PositionDelta.zero : PositionDelta := ⟨0, 0⟩

/-- Embeds `impl Add<PositionDelta> for PositionDelta`. -/
def PositionDelta.add (a b : PositionDelta) : PositionDelta :=
  ⟨a.rank_delta + b.rank_delta, a.file_delta + b.file_delta⟩

/-- Embeds `impl Mul<i8> for PositionDelta`. -/
def PositionDelta.mul (a : PositionDelta) (s : Int) : PositionDelta :=
  ⟨a.rank_delta * s, a.file_delta * s⟩

/-- Embeds `Orientation::as_delta` from `src/navigation.rs`. -/
def Direction.as_delta : Direction → PositionDelta
  | .North => ⟨1, 0⟩
  | .East => ⟨0, 1⟩
  | .South => ⟨-1, 0⟩
  | .West => ⟨0, -1⟩

/-- Embeds `Coordinate` from `src/navigation.rs` (`u8` components as `Nat`). -/
structure Coordinate where
  rank : Nat
  file : Nat
deriving DecidableEq, Repr

/-- The `as u8` result of `u8/i8` cast arithmetic: value modulo 256. -/
def u8_wrap (i : Int) : Nat := (i % 256).toNat

/-- Embeds `impl Add<PositionDelta> for Coordinate`:
`Coordinate::new((rank as i8 + rank_delta) as u8, (file as i8 + file_delta) as u8)`,
with the wrapping cast chain modelled modulo 256. -/
def coord_add (c : Coordinate) (d : PositionDelta) : Coordinate :=
  ⟨u8_wrap ((c.rank : Int) + d.rank_delta), u8_wrap ((c.file : Int) + d.file_delta)⟩

/-- Embeds `TileType` from `src/tiles.rs`. -/
inductive TileType where
  | Two
  | Three
  | Four
deriving DecidableEq, Repr, Fintype

/-- Embeds `TileType::full_stride_length`. -/
def TileType.full_stride_length : TileType → Nat
  | .Two => 2
  | .Three => 3
  | .Four => 4

/-- Embeds `TileType::short_stride_length`. -/
def TileType.short_stride_length : TileType → Nat
  | .Two => 1
  | .Three => 2
  | .Four => 3

/-- Embeds `Stride` from `src/tiles.rs`. -/
structure Stride where
  start_direction : Direction
  start_length : Nat
  bend_direction : Direction
  bend_length : Nat
  is_full_stride : Bool
deriving DecidableEq, Repr

/-- Embeds `Stride::new_bend`. -/
def Stride.new_bend (start_direction : Direction) (start_length : Nat)
    (bend_direction : Direction) (bend_length : Nat) (is_full_stride : Bool) : Stride :=
  ⟨start_direction, start_length, bend_direction, bend_length, is_full_stride⟩

/-- Embeds `Stride::new_straight`. -/
def Stride.new_straight (start_direction : Direction) (start_length : Nat)
    (is_full_stride : Bool) : Stride :=
  ⟨start_direction, start_length, start_direction, 0, is_full_stride⟩

/-- Embeds `Stride::can_capture`. -/
def Stride.can_capture (s : Stride) : Bool := s.is_full_stride

/-- Embeds `Stride::full_delta`. -/
def Stride.full_delta (s : Stride) : PositionDelta :=
  (s.start_direction.as_delta.mul s.start_length).add
    (s.bend_direction.as_delta.mul s.bend_length)

/-- Embeds `Orientation::iter()` (strum `EnumIter` follows declaration order). -/
def Direction.iter_all : List Direction := [.North, .West, .South, .East]

/-- Embeds `TileType::make_strides` from `src/tiles.rs`: for every start direction
and every bend point in `0..stride_length`, one straight stride at bend
point 0 and a left and a right bend stride at every later bend point. -/
def TileType.make_strides (t : TileType) (are_full_strides : Bool) : List Stride :=
  let stride_length := if are_full_strides then t.full_stride_length else t.short_stride_length
  Direction.iter_all.flatMap fun start_direction =>
    (List.range stride_length).flatMap fun bend_point =>
      if bend_point ≠ 0 then
        [Stride.new_bend start_direction bend_point start_direction.turn_left
           (stride_length - bend_point) are_full_strides,
         Stride.new_bend start_direction bend_point start_direction.turn_right
           (stride_length - bend_point) are_full_strides]
      else
        [Stride.new_straight start_direction stride_length are_full_strides]

/-- Embeds `TileType::full_strides`. -/
def TileType.full_strides (t : TileType) : List Stride := t.make_strides true

/-- Embeds `TileType::short_strides`. -/
def TileType.short_strides (t : TileType) : List Stride := t.make_strides false

/-- Embeds `TileType::all_strides` (full strides first, then short strides). -/
def TileType.all_strides (t : TileType) : List Stride :=
  t.full_strides ++ t.short_strides

/-- Embeds `Step` from `src/tiles.rs`. -/
structure Step where
  enter_direction : Direction
  leave_direction : Option Direction
  position_delta : PositionDelta
deriving DecidableEq, Repr

/-- One `StrideIterator::next` state transition from `src/tiles.rs`, unrolled
into a list builder: `index`, `last_direction` and the running
`position_delta` are the iterator's fields; `fuel` bounds the recursion and
is instantiated with the stride's total length, past which the iterator
yields `None` anyway.  The `u8` subtractions `start_length - 1` are `Nat`
truncated subtraction; every stride the engine constructs has
`start_length ≥ 1`, so no wrap can occur. -/
def stride_steps_from (s : Stride) : Nat → Nat → Direction → PositionDelta → List Step
  | 0, _, _, _ => []
  | fuel + 1, index, last_direction, position_delta =>
    if index ≥ s.start_length + s.bend_length then []
    else
      let leave_direction : Option Direction :=
        if index < s.start_length - 1 then some s.start_direction
        else if index < s.start_length + s.bend_length - 1 then some s.bend_direction
        else none
      let new_delta := position_delta.add last_direction.as_delta
      let step : Step := ⟨last_direction, leave_direction, new_delta⟩
      step :: stride_steps_from s fuel (index + 1) (leave_direction.getD last_direction) new_delta

/-- Embeds `Stride::steps` from `src/tiles.rs`: the full walk of the stride. -/
def Stride.steps (s : Stride) : List Step :=
  stride_steps_from s (s.start_length + s.bend_length) 0 s.start_direction PositionDelta.zero

/-- Embeds `Alignment`/`BarragoonAlignment` from `src/pieces/barragoon.rs`. -/
inductive BarragoonAlignment where
  | Horizontal
  | Vertical
deriving DecidableEq, Repr, Fintype

/-- Embeds `BarragoonFace` from `src/pieces/barragoon.rs` (16 values). -/
inductive BarragoonFace where
  | Blocking
  | Straight (alignment : BarragoonAlignment)
  | OneWay (direction : Direction)
  | OneWayTurnLeft (direction : Direction)
  | OneWayTurnRight (direction : Direction)
  | ForceTurn
deriving DecidableEq, Repr, Fintype

/-- Embeds `BarragoonFace::can_be_captured_from` from `src/pieces/barragoon.rs`. -/
def BarragoonFace.can_be_captured_from (f : BarragoonFace) (enter_dir : Direction) : Bool :=
  match f with
  | .ForceTurn | .Blocking => true
  | .Straight .Vertical => enter_dir = .North ∨ enter_dir = .South
  | .Straight .Horizontal => enter_dir = .West ∨ enter_dir = .East
  | .OneWay one_way_dir => one_way_dir = enter_dir
  | .OneWayTurnLeft .South | .OneWayTurnRight .North => enter_dir = .West
  | .OneWayTurnLeft .North | .OneWayTurnRight .South => enter_dir = .East
  | .OneWayTurnLeft .East | .OneWayTurnRight .West => enter_dir = .South
  | .OneWayTurnLeft .West | .OneWayTurnRight .East => enter_dir = .North

/-- Embeds `BarragoonFace::can_be_captured_by` from `src/pieces/barragoon.rs`. -/
def BarragoonFace.can_be_captured_by (f : BarragoonFace) (tile_type : TileType) : Bool :=
  tile_type ≠ .Two ∨ f ≠ .ForceTurn

/-- Embeds `BarragoonFace::can_be_traversed` from `src/pieces/barragoon.rs`: classify
the (enter, leave) pair and require exactly one matching category before the
per-face rule. -/
def BarragoonFace.can_be_traversed (f : BarragoonFace) (enter_dir leave_dir : Direction) : Bool :=
  let is_horizontal : Bool :=
    enter_dir = .East ∧ leave_dir = .West ∨ enter_dir = .West ∧ leave_dir = .East
  let is_vertical : Bool :=
    enter_dir = .South ∧ leave_dir = .North ∨ enter_dir = .North ∧ leave_dir = .South
  let is_left_turn : Bool :=
    enter_dir = .North ∧ leave_dir = .West ∨ enter_dir = .South ∧ leave_dir = .East
      ∨ enter_dir = .East ∧ leave_dir = .North ∨ enter_dir = .West ∧ leave_dir = .South
  let is_right_turn : Bool :=
    enter_dir = .North ∧ leave_dir = .East ∨ enter_dir = .South ∧ leave_dir = .West
      ∨ enter_dir = .East ∧ leave_dir = .South ∨ enter_dir = .West ∧ leave_dir = .North
  if (is_horizontal.toNat + is_vertical.toNat + is_left_turn.toNat + is_right_turn.toNat) ≠ 1 then
    false
  else
    match f with
    | .Blocking => false
    | .ForceTurn => is_left_turn ∨ is_right_turn
    | .Straight .Vertical => is_vertical
    | .Straight .Horizontal => is_horizontal
    | .OneWay direction => direction = enter_dir ∧ (is_horizontal ∨ is_vertical)
    | .OneWayTurnLeft direction => is_left_turn ∧ leave_dir = direction
    | .OneWayTurnRight direction => is_right_turn ∧ leave_dir = direction

/-- Embeds `BarragoonFace::all_faces` from `src/pieces/barragoon.rs`, in the order of
the static `FACES` array. -/
def BarragoonFace.all_faces : List BarragoonFace :=
  [.Blocking,
   .Straight .Horizontal,
   .Straight .Vertical,
   .OneWay .North, .OneWay .South, .OneWay .East, .OneWay .West,
   .OneWayTurnLeft .North, .OneWayTurnLeft .South, .OneWayTurnLeft .East, .OneWayTurnLeft .West,
   .OneWayTurnRight .North, .OneWayTurnRight .South, .OneWayTurnRight .East, .OneWayTurnRight .West,
   .ForceTurn]

/-- Embeds `Player` from `src/bin/cubekill/main.rs` (`White`/`Brown` in the
`src/main.rs` snapshot; one historical pair is normalized to the other). -/
inductive Player where
  | Light
  | Dark
deriving DecidableEq, Repr, Fintype

/-- Embeds `Tile` from `src/bin/cubekill/main.rs`. -/
structure Tile where
  tile_type : TileType
  player : Player
deriving DecidableEq, Repr, Fintype

/-- Embeds `SquareContent` from `src/bin/cubekill/main.rs`. -/
inductive SquareContent where
  | Empty
  | Tile (tile : Tile)
  | Barragoon (face : BarragoonFace)
deriving DecidableEq, Repr, Fintype

/-- The board array `[[SquareContent; BOARD_WIDTH]; BOARD_HEIGHT]` with
`BOARD_HEIGHT = 9` ranks and `BOARD_WIDTH = 7` files. -/
def Board := Fin 9 → Fin 7 → SquareContent

/-- Embeds `Game` from `src/bin/cubekill/main.rs`. -/
structure Game where
  board : Board
  current_player : Player

/-- Embeds `Game::contains_coordinate`. -/
def contains_coordinate (c : Coordinate) : Bool :=
  c.rank < 9 ∧ c.file < 7

/-- Embeds `Game::get_content` (`board[rank][file]`; a Rust out-of-bounds index would
panic, and every engine read is guarded by `contains_coordinate`; reads
outside the board are mapped to `Empty`). -/
def get_content (g : Game) (c : Coordinate) : SquareContent :=
  if h : c.rank < 9 ∧ c.file < 7 then g.board ⟨c.rank, h.1⟩ ⟨c.file, h.2⟩
  else .Empty

/-- Write one square of a board (helper for `set_content` and `from_fen`);
a write outside the board changes nothing. -/
def board_set (b : Board) (rank file : Nat) (v : SquareContent) : Board :=
  fun i j => if i.val = rank ∧ j.val = file then v else b i j

/-- Embeds `Game::set_content`. -/
def set_content (g : Game) (c : Coordinate) (content : SquareContent) : Game :=
  { g with board := board_set g.board c.rank c.file content }

/-- The coordinates visited by `Game::squares` (`SquareIterator`), in its
order: rank 0 to 8, file 0 to 6 within each rank. -/
def square_coordinates : List Coordinate :=
  (List.range 9).flatMap fun irank => (List.range 7).map fun ifile => ⟨irank, ifile⟩

/-- Embeds `FenError` from `src/bin/cubekill/main.rs`; each variant carries the byte
index (`char_indices`) at which decoding failed. -/
inductive FenError where
  | UnderfullLine (char_index : Nat)
  | OverfullLine (char_index : Nat)
  | TooManyLines (char_index : Nat)
  | InvalidChar (char_index : Nat)
deriving DecidableEq, Repr

/-- Embeds `FenParseObject` from `src/bin/cubekill/main.rs`. -/
inductive FenParseObject where
  | JumpCol (cols : Nat)
  | SkipRow
  | Square (content : SquareContent)
  | InvalidChar
deriving DecidableEq, Repr

/-- The result of `Game::from_fen`; `crash` models the two `panic` sites
(row pointer negative at `usize::try_from`, and the unchecked
`board[row][col]` write when a square character lands past a full row). -/
inductive FenResult where
  | ok (game : Game)
  | err (error : FenError)
  | crash

/-- The character dispatch table at the head of `Game::from_fen`'s loop. -/
def parse_fen_char (c : Char) : FenParseObject :=
  match c with
  | 'Z' => .Square (.Tile ⟨.Two, .Light⟩)
  | 'z' => .Square (.Tile ⟨.Two, .Dark⟩)
  | 'D' => .Square (.Tile ⟨.Three, .Light⟩)
  | 'd' => .Square (.Tile ⟨.Three, .Dark⟩)
  | 'V' => .Square (.Tile ⟨.Four, .Light⟩)
  | 'v' => .Square (.Tile ⟨.Four, .Dark⟩)
  | '+' => .Square (.Barragoon .ForceTurn)
  | '|' => .Square (.Barragoon (.Straight .Vertical))
  | '-' => .Square (.Barragoon (.Straight .Horizontal))
  | 'Y' => .Square (.Barragoon (.OneWay .South))
  | '^' => .Square (.Barragoon (.OneWay .North))
  | '<' => .Square (.Barragoon (.OneWay .West))
  | '>' => .Square (.Barragoon (.OneWay .East))
  | 'x' => .Square (.Barragoon .Blocking)
  | 'S' => .Square (.Barragoon (.OneWayTurnLeft .South))
  | 'N' => .Square (.Barragoon (.OneWayTurnLeft .North))
  | 'E' => .Square (.Barragoon (.OneWayTurnLeft .East))
  | 'W' => .Square (.Barragoon (.OneWayTurnLeft .West))
  | 's' => .Square (.Barragoon (.OneWayTurnRight .South))
  | 'n' => .Square (.Barragoon (.OneWayTurnRight .North))
  | 'e' => .Square (.Barragoon (.OneWayTurnRight .East))
  | 'w' => .Square (.Barragoon (.OneWayTurnRight .West))
  | '/' => .SkipRow
  | _ =>
    if '1' ≤ c ∧ c ≤ '7' then .JumpCol (c.toNat - 48)
    else .InvalidChar

/-- The loop of `Game::from_fen` over the remaining characters: `idx` is the
current byte index, `row_ptr` the signed row pointer (starts at 8), `col`
the column pointer.  Mirrors the Rust control flow: compute the parse
object, convert `row_ptr` (panic if negative), then dispatch. -/
def from_fen_loop : List Char → Nat → Board → Int → Nat → FenResult
  | [], _, b, _, _ => .ok ⟨b, .Light⟩
  | c :: cs, idx, b, row_ptr, col =>
    if row_ptr < 0 then .crash
    else
      match parse_fen_char c with
      | .Square content =>
        if col < 7 then
          from_fen_loop cs (idx + c.utf8Size) (board_set b row_ptr.toNat col content) row_ptr (col + 1)
        else .crash
      | .JumpCol cols =>
        if col + cols > 7 then .err (.OverfullLine idx)
        else from_fen_loop cs (idx + c.utf8Size) b row_ptr (col + cols)
      | .SkipRow =>
        if col = 7 then
          if row_ptr - 1 < 0 then .err (.TooManyLines idx)
          else from_fen_loop cs (idx + c.utf8Size) b (row_ptr - 1) 0
        else .err (.UnderfullLine idx)
      | .InvalidChar => .err (.InvalidChar idx)

/-- The all-`Empty` board `from_fen` starts from. -/
def empty_board : Board := fun _ _ => .Empty

/-- Embeds `Game::from_fen`. -/
def from_fen (fen : String) : FenResult :=
  from_fen_loop fen.data 0 empty_board 8 0

/-- Embeds `INITIAL_FEN_STRING`. -/
def INITIAL_FEN_STRING : String := "1vd1dv1/2zdz2/7/1x3x1/x1x1x1x/1x3x1/7/2ZDZ2/1VD1DV1"

/-- Embeds `EMPTY_FEN_STRING`. -/
def EMPTY_FEN_STRING : String := "7/7/7/7/7/7/7/7/7"

/-- Extract the game of an `ok` result (the `expect` of `Game::new` /
`Game::empty`; the all-empty light-to-move game is the junk value). -/
def FenResult.get_game : FenResult → Game
  | .ok g => g
  | _ => ⟨empty_board, .Light⟩

/-- Embeds `FenResult` success test. -/
def FenResult.is_ok : FenResult → Bool
  | .ok _ => true
  | _ => false

/-- Embeds `Game::new()`. -/
def game_new : Game := (from_fen INITIAL_FEN_STRING).get_game

/-- Embeds `Game::empty()`. -/
def game_empty : Game := (from_fen EMPTY_FEN_STRING).get_game

/-- Embeds `SquareContent::as_fen_char` from `src/bin/cubekill/main.rs` (including
`Tile::as_fen_char`). -/
def SquareContent.as_fen_char : SquareContent → Char
  | .Empty => ' '
  | .Tile ⟨.Two, .Light⟩ => 'Z'
  | .Tile ⟨.Three, .Light⟩ => 'D'
  | .Tile ⟨.Four, .Light⟩ => 'V'
  | .Tile ⟨.Two, .Dark⟩ => 'z'
  | .Tile ⟨.Three, .Dark⟩ => 'd'
  | .Tile ⟨.Four, .Dark⟩ => 'v'
  | .Barragoon .ForceTurn => '+'
  | .Barragoon (.Straight .Vertical) => '|'
  | .Barragoon (.Straight .Horizontal) => '-'
  | .Barragoon (.OneWay .South) => 'Y'
  | .Barragoon (.OneWay .North) => '^'
  | .Barragoon (.OneWay .West) => '<'
  | .Barragoon (.OneWay .East) => '>'
  | .Barragoon .Blocking => 'x'
  | .Barragoon (.OneWayTurnLeft .South) => 'S'
  | .Barragoon (.OneWayTurnLeft .North) => 'N'
  | .Barragoon (.OneWayTurnLeft .East) => 'E'
  | .Barragoon (.OneWayTurnLeft .West) => 'W'
  | .Barragoon (.OneWayTurnRight .South) => 's'
  | .Barragoon (.OneWayTurnRight .North) => 'n'
  | .Barragoon (.OneWayTurnRight .East) => 'e'
  | .Barragoon (.OneWayTurnRight .West) => 'w'

/-- The characters of `empty_count.to_string()`. -/
def nat_chars (n : Nat) : List Char := (toString n).data

/-- The inner row loop of `Game::as_fen`: run-length encode the empties of
one rank; `count` is the pending `empty_count`. -/
def encode_row_aux : List SquareContent → Nat → List Char
  | [], count => if count > 0 then nat_chars count else []
  | sq :: rest, count =>
    if sq = .Empty then encode_row_aux rest (count + 1)
    else (if count > 0 then nat_chars count else []) ++ (sq.as_fen_char :: encode_row_aux rest 0)

/-- One rank of the board as the list of its 7 squares, file 0 to 6. -/
def row_list (g : Game) (r : Fin 9) : List SquareContent :=
  (List.finRange 7).map fun j => g.board r j

/-- Embeds `Game::as_fen` as a character list: ranks from 8 down to 0, each
run-length encoded and followed by `'/'`, with the final slash popped. -/
def as_fen_chars (g : Game) : List Char :=
  ((List.finRange 9).reverse.foldl
    (fun acc r => acc ++ encode_row_aux (row_list g r) 0 ++ ['/']) []).dropLast

/-- Embeds `Game::as_fen`. -/
def as_fen (g : Game) : String := ⟨as_fen_chars g⟩

/-- Embeds `BoardMove` from `src/bin/cubekill/main.rs`. -/
inductive BoardMove where
  | Straight (start stop : Coordinate) (tile : Tile)
  | TileCapture (start stop : Coordinate) (tile : Tile) (victim : Tile)
  | BarragoonCapture (start stop : Coordinate) (tile : Tile) (victim : BarragoonFace)
      (target : Coordinate) (barragoon : BarragoonFace)
  | BarragoonPlacement (target : Coordinate) (barragoon : BarragoonFace)
deriving DecidableEq, Repr

/-- Embeds `MoveError` from `src/bin/cubekill/main.rs`. -/
inductive MoveError where
  | ForeignConstructedMoveUsed
deriving DecidableEq, Repr

/-- The barragoon-capture expansion inside `Game::valid_moves`: for every
square of the board that is empty or is the capturing tile's own origin
(`content != Empty && coordinate != square.coordinate → continue`), and
for every face of `BarragoonFace::all_faces`, one `BarragoonCapture` move. -/
def barragoon_capture_batch (g : Game) (origin stop : Coordinate) (tile : Tile)
    (victim : BarragoonFace) : List BoardMove :=
  (square_coordinates.filter fun target =>
      get_content g target = .Empty ∨ target = origin).flatMap
    fun target =>
      BarragoonFace.all_faces.map fun new_face =>
        .BarragoonCapture origin stop tile victim target new_face

/-- The inner `for full_step in stride.steps()` loop of `Game::valid_moves`:
walk the remaining steps of one stride, emitting the moves the loop pushes;
returning an empty remainder models `break`, skipping a step models
`continue`. -/
def walk_steps (g : Game) (origin : Coordinate) (tile : Tile) (can_capture : Bool) :
    List Step → List BoardMove
  | [] => []
  | full_step :: rest =>
    let new_coordinate := coord_add origin full_step.position_delta
    if ¬ contains_coordinate new_coordinate then
      walk_steps g origin tile can_capture rest
    else
      let is_last_step := full_step.leave_direction = none
      match get_content g new_coordinate with
      | .Tile attacked_tile =>
        if tile.player = attacked_tile.player ∨ ¬ is_last_step ∨ ¬ can_capture then []
        else
          .TileCapture origin new_coordinate tile attacked_tile
            :: walk_steps g origin tile can_capture rest
      | .Empty =>
        if is_last_step then
          .Straight origin new_coordinate tile :: walk_steps g origin tile can_capture rest
        else
          walk_steps g origin tile can_capture rest
      | .Barragoon face =>
        match full_step.leave_direction with
        | some leave_direction =>
          if ¬ face.can_be_traversed full_step.enter_direction leave_direction then []
          else walk_steps g origin tile can_capture rest
        | none =>
          if can_capture ∧ face.can_be_captured_by tile.tile_type
              ∧ face.can_be_captured_from full_step.enter_direction then
            barragoon_capture_batch g origin new_coordinate tile face
              ++ walk_steps g origin tile can_capture rest
          else []

/-- The `for stride in all_strides` loop of `Game::valid_moves`, carrying the
per-square `covered_squares` set: a stride whose end square is off the board
or already covered is skipped; a stride that emitted moves covers its end
square (the engine inserts exactly when it pushed). -/
def stride_fold (g : Game) (origin : Coordinate) (tile : Tile) :
    List Stride → List Coordinate → List BoardMove
  | [], _ => []
  | stride :: rest, covered =>
    let coordinate_to_cover := coord_add origin stride.full_delta
    if ¬ contains_coordinate coordinate_to_cover then
      stride_fold g origin tile rest covered
    else if coordinate_to_cover ∈ covered then
      stride_fold g origin tile rest covered
    else
      let pushed := walk_steps g origin tile stride.can_capture stride.steps
      pushed ++ stride_fold g origin tile rest
        (if pushed.isEmpty then covered else coordinate_to_cover :: covered)

/-- Embeds `Game::valid_moves`. -/
def valid_moves (g : Game) : List BoardMove :=
  square_coordinates.flatMap fun c =>
    match get_content g c with
    | .Tile moving_tile =>
      if moving_tile.player = g.current_player then
        stride_fold g c moving_tile moving_tile.tile_type.all_strides []
      else []
    | _ => []

/-- Embeds `Game::make_move` from `src/bin/cubekill/main.rs`, with the `&mut self`
mutation made explicit: the pair holds the returned `Result` and the
post-state (unchanged on rejection). -/
def make_move (g : Game) (game_move : BoardMove) : Except MoveError Unit × Game :=
  if game_move ∈ valid_moves g then
    match game_move with
    | .Straight start stop tile =>
      (.ok (), set_content (set_content g stop (.Tile tile)) start .Empty)
    | .TileCapture start stop tile _ =>
      (.ok (), set_content (set_content g stop (.Tile tile)) start .Empty)
    | .BarragoonCapture start stop tile _ target barragoon =>
      (.ok (), set_content (set_content (set_content g stop (.Tile tile)) start .Empty)
                 target (.Barragoon barragoon))
    | .BarragoonPlacement target barragoon =>
      (.ok (), set_content g target (.Barragoon barragoon))
  else (.error .ForeignConstructedMoveUsed, g)

/-! ## Helper definitions for the verification -/

/-- Writing the squares of one rank in file order starting at column `c`,
skipping `Empty` squares (the net board effect of parsing one encoded rank:
jumps write nothing, square characters write their content). -/
def write_row : Board → Nat → Nat → List SquareContent → Board
  | b, _, _, [] => b
  | b, r, c, sq :: rest =>
    write_row (if sq = .Empty then b else board_set b r c sq) r (c + 1) rest

/-- One rank of the board read through `get_content`, file 0 to 6. -/
def row_list2 (g : Game) (r : Nat) : List SquareContent :=
  (List.range 7).map fun f => get_content g ⟨r, f⟩

/-- The `as_fen` encoding of ranks `r` down to `0`, `'/'`-separated: the tail
of the FEN string starting at rank `r`. -/
def fen_tail_chars (g : Game) : Nat → List Char
  | 0 => encode_row_aux (row_list2 g 0) 0
  | r + 1 => encode_row_aux (row_list2 g (r + 1)) 0 ++ '/' :: fen_tail_chars g r

/-- Test for the `BoardMove::BarragoonCapture` variant. -/
def is_barragoon_capture : BoardMove → Bool
  | .BarragoonCapture _ _ _ _ _ _ => true
  | _ => false

/-- Test for the `BoardMove::Straight` variant. -/
def is_straight_move : BoardMove → Bool
  | .Straight _ _ _ => true
  | _ => false

/-- Sanity bound on the single-step displacements of the engine's strides:
nonzero and at most 4 in each component. -/
def step_delta_small (pd : PositionDelta) : Bool :=
  pd ≠ ⟨0, 0⟩ ∧ pd.rank_delta.natAbs ≤ 4 ∧ pd.file_delta.natAbs ≤ 4

/-- The scenario of `two_piece_and_a_barragoon_have_1003_moves`: a light Two
tile on (rank 4, file 3) and a Blocking barragoon on (rank 2, file 3) of an
otherwise empty board. -/
def c1_game : Game :=
  set_content (set_content game_empty ⟨4, 3⟩ (.Tile ⟨.Two, .Light⟩)) ⟨2, 3⟩
    (.Barragoon .Blocking)

/-- The capture-relocation cross product the specification describes for the
`c1_game` scenario: every square that is empty in the position — together
with the attacker's own origin, which is empty once the attacker has moved —
crossed with all 16 barragoon faces, carried by a `BarragoonCapture` whose
start is the attacker's origin (4,3), whose stop is the captured square
(2,3) and whose victim is the captured `Blocking` face. -/
def c1_expected_captures : List BoardMove :=
  (square_coordinates.filter fun target =>
      get_content c1_game target = .Empty ∨ target = ⟨4, 3⟩).flatMap fun target =>
    BarragoonFace.all_faces.map fun new_face =>
      .BarragoonCapture ⟨4, 3⟩ ⟨2, 3⟩ ⟨.Two, .Light⟩ .Blocking target new_face

/-- The single-tile scenarios of the `piece_has_n_moves` tests: one light
tile of the given type on (rank 4, file 3) of an empty board. -/
def c3_game (t : TileType) : Game :=
  set_content game_empty ⟨4, 3⟩ (.Tile ⟨t, .Light⟩)

/-- A scenario for the traversal-blocking consequence: a light Two tile on
(rank 4, file 3) and a vertically aligned Straight barragoon directly north
of it on (rank 5, file 3). -/
def c10_game : Game :=
  set_content (set_content game_empty ⟨4, 3⟩ (.Tile ⟨.Two, .Light⟩)) ⟨5, 3⟩
    (.Barragoon (.Straight .Vertical))

/-! ## Theorems -/

set_option maxRecDepth 1000000

/-- C1: in the position with a single light Two tile at (rank 4, file 3) and
a Blocking barragoon at (rank 2, file 3) on an otherwise empty board,
`valid_moves` returns exactly `7 + 4 + 62 * 16` moves, and its
`BarragoonCapture` moves are exactly the cross product of the 62 admissible
target squares (the 61 empty squares together with the attacker's origin,
which is empty once the attacker has moved) with all 16 barragoon faces,
each move carrying the attacker's origin (4,3) as start, the captured
square (2,3) as stop, the captured `Blocking` face as victim, and the
chosen square and face as target and new face. -/
theorem c1_barragoon_capture_cross_product :
    (valid_moves c1_game).length = 7 + 4 + 62 * 16 ∧
    (valid_moves c1_game).filter is_barragoon_capture = c1_expected_captures ∧
    (square_coordinates.filter fun target =>
        get_content c1_game target = .Empty ∨ target = ⟨4, 3⟩).length = 62 := by
  refine ⟨by decide, by decide, by decide⟩

/-- C2: the position decoded from the canonical start FEN string has exactly
28 valid moves, all of them `Straight`, with no two structurally equal. -/
theorem c2_start_position_moves :
    (valid_moves game_new).length = 28 ∧
    (valid_moves game_new).all is_straight_move = true ∧
    (valid_moves game_new).Nodup := by
  refine ⟨by decide, by decide, by decide⟩

/-- C3: a single tile of the current player at (rank 4, file 3) on an empty
board has exactly 12 valid moves for a Two, 20 for a Three and 26 for a
Four. -/
theorem c3_single_tile_move_counts :
    (valid_moves (c3_game .Two)).length = 12 ∧
    (valid_moves (c3_game .Three)).length = 20 ∧
    (valid_moves (c3_game .Four)).length = 26 := by
  refine ⟨by decide, by decide, by decide⟩

/-- C4 (divergence witness): an input whose final row sums to fewer than 7
file-widths and is not terminated by `'/'` is accepted by `from_fen` — the
loop simply ends and returns the position, the missing squares staying
`Empty` — rather than rejected with a positional error as the claim
states. -/
theorem c4_underfull_final_row_accepted :
    (from_fen "7/7/7/7/7/7/7/7/6").is_ok = true ∧
    get_content (from_fen "7/7/7/7/7/7/7/7/6").get_game ⟨0, 6⟩ = .Empty := by
  refine ⟨by decide, by decide⟩

/-- C7: `full_strides` returns exactly 12 strides for Two, 20 for Three and
28 for Four, pairwise distinct within each tile type. -/
theorem c7_full_stride_counts :
    TileType.Two.full_strides.length = 12 ∧
    TileType.Three.full_strides.length = 20 ∧
    TileType.Four.full_strides.length = 28 ∧
    TileType.Two.full_strides.Nodup ∧
    TileType.Three.full_strides.Nodup ∧
    TileType.Four.full_strides.Nodup := by
  refine ⟨by decide, by decide, by decide, by decide, by decide, by decide⟩

/-- Traversal with equal enter and leave direction matches none of the four
(enter, leave) categories, so `can_be_traversed` refuses it for every
face. -/
theorem can_be_traversed_same_dir (f : BarragoonFace) (d : Direction) :
    f.can_be_traversed d d = false := by revert f d; decide

/-- C8: for every on-board coordinate and every delta whose components are
at most 4 in absolute value, if the exact sum lies outside the 9×7 board
then `contains_coordinate` rejects the wrapped result of `coord_add` —
unsigned wrap-around never lands back on the board. -/
theorem c8_coord_add_never_wraps_onto_board (c : Coordinate) (d : PositionDelta)
    (hc : contains_coordinate c = true)
    (hr : d.rank_delta.natAbs ≤ 4) (hf : d.file_delta.natAbs ≤ 4)
    (hout : (c.rank : Int) + d.rank_delta < 0 ∨ 9 ≤ (c.rank : Int) + d.rank_delta ∨
            (c.file : Int) + d.file_delta < 0 ∨ 7 ≤ (c.file : Int) + d.file_delta) :
    contains_coordinate (coord_add c d) = false := by
  simp only [contains_coordinate, coord_add, u8_wrap, decide_eq_true_eq,
    decide_eq_false_iff_not] at *
  omega

/-- Witness for C8 at the concrete input (4,3) + (−4,−4): the exact sum
(0,−1) is off the board and the wrapped coordinate is rejected. -/
theorem c8_coord_add_never_wraps_onto_board_witness :
    contains_coordinate (coord_add ⟨4, 3⟩ ⟨-4, -4⟩) = false :=
  c8_coord_add_never_wraps_onto_board ⟨4, 3⟩ ⟨-4, -4⟩ (by decide) (by decide) (by decide)
    (by decide)

/-- C9: `make_move` never touches `current_player`, whether the candidate
move is accepted or rejected. -/
theorem c9_make_move_preserves_current_player (g : Game) (m : BoardMove) :
    (make_move g m).2.current_player = g.current_player := by
  by_cases h : m ∈ valid_moves g
  · cases m <;> simp [make_move, h, set_content]
  · simp [make_move, h]

/-- C10: an (enter, leave) pair with equal directions matches none of the
four traversal categories, so `can_be_traversed` returns `false` for every
face; consequently a non-final stride step that enters and would leave a
barragoon square in the same direction makes `valid_moves`' inner walk
break, emitting nothing for the whole stride, whatever the face. -/
theorem c10_same_direction_blocks (g : Game) (origin : Coordinate) (tile : Tile)
    (can_capture : Bool) (f : BarragoonFace) (d : Direction) (pd : PositionDelta)
    (rest : List Step)
    (hcont : contains_coordinate (coord_add origin pd) = true)
    (hface : get_content g (coord_add origin pd) = .Barragoon f) :
    (∀ (f2 : BarragoonFace) (d2 : Direction), f2.can_be_traversed d2 d2 = false) ∧
    walk_steps g origin tile can_capture (⟨d, some d, pd⟩ :: rest) = [] := by
  refine ⟨can_be_traversed_same_dir, ?_⟩
  simp [walk_steps, hcont, hface, can_be_traversed_same_dir]

/-- Witness for C10: a Two on (4,3) walking straight north into a vertical
Straight barragoon on (5,3) — a face that permits vertical pass-through —
still emits nothing, because the straight continuation enters and leaves
northward. -/
theorem c10_same_direction_blocks_witness :
    walk_steps c10_game ⟨4, 3⟩ ⟨.Two, .Light⟩ true
      [⟨.North, some .North, ⟨1, 0⟩⟩, ⟨.North, none, ⟨2, 0⟩⟩] = [] :=
  (c10_same_direction_blocks c10_game ⟨4, 3⟩ ⟨.Two, .Light⟩ true (.Straight .Vertical)
    .North ⟨1, 0⟩ [⟨.North, none, ⟨2, 0⟩⟩] (by decide) (by decide)).2

/-- Embeds `contains_coordinate` unfolded to its proposition. -/
theorem contains_iff {c : Coordinate} :
    contains_coordinate c = true ↔ c.rank < 9 ∧ c.file < 7 := by
  simp [contains_coordinate]

/-- The square iterator visits exactly the on-board coordinates. -/
theorem mem_square_coordinates {c : Coordinate} :
    c ∈ square_coordinates ↔ c.rank < 9 ∧ c.file < 7 := by
  constructor
  · intro h
    simp only [square_coordinates, List.mem_flatMap, List.mem_map, List.mem_range] at h
    obtain ⟨r, hr, f, hf, heq⟩ := h
    subst heq
    exact ⟨hr, hf⟩
  · rintro ⟨h1, h2⟩
    simp only [square_coordinates, List.mem_flatMap, List.mem_map, List.mem_range]
    exact ⟨c.rank, h1, c.file, h2, rfl⟩

/-- Every move of a capture-relocation batch is a `BarragoonCapture` with
the batch's start, stop, tile and victim. -/
theorem mem_barragoon_capture_batch {g : Game} {o s : Coordinate} {t : Tile}
    {v : BarragoonFace} {m : BoardMove} (h : m ∈ barragoon_capture_batch g o s t v) :
    ∃ target nf, m = .BarragoonCapture o s t v target nf := by
  simp only [barragoon_capture_batch, List.mem_flatMap, List.mem_map, List.mem_filter] at h
  obtain ⟨target, _, nf, _, heq⟩ := h
  exact ⟨target, nf, heq.symm⟩

theorem walk_steps_straight_mem {g : Game} {o : Coordinate} {t : Tile} {cc : Bool}
    {a b : Coordinate} {tt : Tile} :
    ∀ {ss : List Step}, BoardMove.Straight a b tt ∈ walk_steps g o t cc ss →
      a = o ∧ tt = t ∧ contains_coordinate b = true ∧
      ∃ step ∈ ss, b = coord_add o step.position_delta := by
  intro ss
  induction ss with
  | nil => intro h; simp [walk_steps] at h
  | cons step rest ih =>
    intro h
    have weaken : BoardMove.Straight a b tt ∈ walk_steps g o t cc rest →
        a = o ∧ tt = t ∧ contains_coordinate b = true ∧
        ∃ st ∈ step :: rest, b = coord_add o st.position_delta := by
      intro hm
      obtain ⟨ha, htt, hb, st, hst, hrfl⟩ := ih hm
      exact ⟨ha, htt, hb, st, List.mem_cons_of_mem _ hst, hrfl⟩
    simp only [walk_steps] at h
    by_cases hcont : contains_coordinate (coord_add o step.position_delta) = true
    · rw [if_neg (not_not_intro hcont)] at h
      split at h
      · -- Tile arm
        split at h
        · simp at h
        · rcases List.mem_cons.mp h with hh | hh
          · simp at hh
          · exact weaken hh
      · -- Empty arm
        split at h
        · rcases List.mem_cons.mp h with hh | hh
          · obtain ⟨ha, hb, htt⟩ := BoardMove.Straight.inj hh
            subst ha; subst hb; subst htt
            exact ⟨rfl, rfl, hcont, step, List.mem_cons_self .., rfl⟩
          · exact weaken hh
        · exact weaken h
      · -- Barragoon arm
        split at h
        · split at h
          · simp at h
          · exact weaken h
        · split at h
          · rcases List.mem_append.mp h with hh | hh
            · obtain ⟨target, nf, heq⟩ := mem_barragoon_capture_batch hh
              simp at heq
            · exact weaken hh
          · simp at h
    · rw [if_pos hcont] at h
      exact weaken h

/-- A `Straight` move emitted by the stride loop comes from the walk of one
of its strides. -/
theorem stride_fold_straight_mem {g : Game} {o : Coordinate} {t : Tile}
    {a b : Coordinate} {tt : Tile} :
    ∀ {strides : List Stride} {covered : List Coordinate},
      BoardMove.Straight a b tt ∈ stride_fold g o t strides covered →
      a = o ∧ tt = t ∧ contains_coordinate b = true ∧
      ∃ s ∈ strides, ∃ step ∈ s.steps, b = coord_add o step.position_delta := by
  intro strides
  induction strides with
  | nil => intro covered h; simp [stride_fold] at h
  | cons s rest ih =>
    intro covered h
    have weaken : ∀ {covered2 : List Coordinate},
        BoardMove.Straight a b tt ∈ stride_fold g o t rest covered2 →
        a = o ∧ tt = t ∧ contains_coordinate b = true ∧
        ∃ s2 ∈ s :: rest, ∃ step ∈ s2.steps, b = coord_add o step.position_delta := by
      intro covered2 hm
      obtain ⟨ha, htt, hb, s2, hs2, st, hst, hrfl⟩ := ih hm
      exact ⟨ha, htt, hb, s2, List.mem_cons_of_mem _ hs2, st, hst, hrfl⟩
    simp only [stride_fold] at h
    split at h
    · exact weaken h
    · split at h
      · exact weaken h
      · rcases List.mem_append.mp h with hh | hh
        · obtain ⟨ha, htt, hb, st, hst, hrfl⟩ := walk_steps_straight_mem hh
          exact ⟨ha, htt, hb, s, List.mem_cons_self .., st, hst, hrfl⟩
        · exact weaken hh

/-- A `Straight` move of `valid_moves` starts on the board, moves a tile of
the player to move, and stops on an on-board square displaced from its
start by the cumulative delta of a step of one of that tile's strides. -/
theorem valid_moves_straight_mem {g : Game} {a b : Coordinate} {tt : Tile}
    (h : BoardMove.Straight a b tt ∈ valid_moves g) :
    (a.rank < 9 ∧ a.file < 7) ∧ tt.player = g.current_player ∧
    contains_coordinate b = true ∧
    ∃ s ∈ tt.tile_type.all_strides, ∃ step ∈ s.steps,
      b = coord_add a step.position_delta := by
  simp only [valid_moves, List.mem_flatMap] at h
  obtain ⟨c, hc, hm⟩ := h
  split at hm
  · split at hm
    · rename_i hpl
      obtain ⟨ha, htt, hb, s, hs, st, hst, hrfl⟩ := stride_fold_straight_mem hm
      subst ha; subst htt
      exact ⟨mem_square_coordinates.mp hc, hpl, hb, s, hs, st, hst, hrfl⟩
    · simp at hm
  · simp at hm

/-- Every cumulative step displacement of every stride of every tile type
is nonzero and at most 4 per component. -/
theorem all_strides_step_delta_small :
    ∀ t : TileType, ∀ s ∈ t.all_strides, ∀ step ∈ s.steps,
      step_delta_small step.position_delta = true := by decide

/-- Adding a nonzero, small delta to an on-board coordinate changes at
least one component, even through the wrapping cast. -/
theorem coord_add_small_ne (a : Coordinate) (pd : PositionDelta)
    (h9 : a.rank < 9) (h7 : a.file < 7) (hsmall : step_delta_small pd = true) :
    (coord_add a pd).rank ≠ a.rank ∨ (coord_add a pd).file ≠ a.file := by
  obtain ⟨ar, af⟩ := a
  obtain ⟨dr, df⟩ := pd
  simp only [step_delta_small, decide_eq_true_eq, PositionDelta.mk.injEq, coord_add,
    u8_wrap, ne_eq, not_and] at *
  omega

/-- Reading back a written on-board square. -/
theorem get_set_self (g : Game) (c : Coordinate) (v : SquareContent)
    (h9 : c.rank < 9) (h7 : c.file < 7) : get_content (set_content g c v) c = v := by
  simp [get_content, set_content, board_set, h9, h7]

/-- A write does not affect reads of a square differing in a component. -/
theorem get_set_ne (g : Game) (c : Coordinate) (v : SquareContent) (c' : Coordinate)
    (h : c'.rank ≠ c.rank ∨ c'.file ≠ c.file) :
    get_content (set_content g c v) c' = get_content g c' := by
  by_cases hb : c'.rank < 9 ∧ c'.file < 7
  · simp only [get_content, set_content, board_set, dif_pos hb]
    rcases h with h | h <;> simp [h]
  · simp [get_content, set_content, hb]

/-- C6: a candidate move absent from the freshly computed `valid_moves` set
makes `make_move` return `ForeignConstructedMoveUsed` with the position
completely unchanged; a `Straight` move present in the set is applied,
emptying the origin square and placing the moving tile on the destination
square. -/
theorem c6_make_move_validation (g : Game) (m : BoardMove) :
    (m ∉ valid_moves g → make_move g m = (.error .ForeignConstructedMoveUsed, g)) ∧
    (∀ start stop tile, m = .Straight start stop tile → m ∈ valid_moves g →
      (make_move g m).1 = .ok () ∧
      get_content (make_move g m).2 start = .Empty ∧
      get_content (make_move g m).2 stop = .Tile tile) := by
  constructor
  · intro h
    simp [make_move, h]
  · rintro start stop tile rfl hmem
    obtain ⟨⟨h9, h7⟩, _, hb, s, hs, st, hst, hrfl⟩ := valid_moves_straight_mem hmem
    have hsmall := all_strides_step_delta_small tile.tile_type s hs st hst
    have hne := coord_add_small_ne start st.position_delta h9 h7 hsmall
    obtain ⟨hb9, hb7⟩ := contains_iff.mp hb
    subst hrfl
    simp only [make_move, if_pos hmem]
    refine ⟨by trivial, get_set_self _ _ _ h9 h7, ?_⟩
    rw [get_set_ne _ _ _ _ (by tauto)]
    exact get_set_self _ _ _ hb9 hb7

/-- Witness for C6 at the canonical start position: the legal Straight move
of the Two from (1,2) to (3,2) is applied and mutates the two squares, and
a foreign barragoon placement is rejected with the position unchanged. -/
theorem c6_make_move_validation_witness :
    (make_move game_new (.Straight ⟨1, 2⟩ ⟨3, 2⟩ ⟨.Two, .Light⟩)).1 = .ok () ∧
    get_content (make_move game_new (.Straight ⟨1, 2⟩ ⟨3, 2⟩ ⟨.Two, .Light⟩)).2 ⟨1, 2⟩
      = .Empty ∧
    get_content (make_move game_new (.Straight ⟨1, 2⟩ ⟨3, 2⟩ ⟨.Two, .Light⟩)).2 ⟨3, 2⟩
      = .Tile ⟨.Two, .Light⟩ ∧
    make_move game_new (.BarragoonPlacement ⟨0, 0⟩ .Blocking)
      = (.error .ForeignConstructedMoveUsed, game_new) := by
  obtain ⟨h1, h2, h3⟩ := (c6_make_move_validation game_new
    (.Straight ⟨1, 2⟩ ⟨3, 2⟩ ⟨.Two, .Light⟩)).2 ⟨1, 2⟩ ⟨3, 2⟩ ⟨.Two, .Light⟩ rfl (by decide)
  exact ⟨h1, h2, h3, (c6_make_move_validation game_new
    (.BarragoonPlacement ⟨0, 0⟩ .Blocking)).1 (by decide)⟩

/-- Digit run-length characters decode back to the jump they encode. -/
theorem parse_digit (n : Nat) (h1 : 1 ≤ n) (h2 : n ≤ 7) :
    ∃ ch, nat_chars n = [ch] ∧ parse_fen_char ch = .JumpCol n := by
  interval_cases n <;> exact ⟨_, rfl, by decide⟩

/-- Every non-empty square content decodes back from its FEN character. -/
theorem fen_char_spec : ∀ sq : SquareContent, sq ≠ .Empty →
    parse_fen_char sq.as_fen_char = .Square sq := by decide

/-- One parser transition on a square character: write and advance. -/
theorem loop_square_step {c : Char} {sq : SquareContent} (hp : parse_fen_char c = .Square sq)
    (cs : List Char) (idx : Nat) (b : Board) (row_ptr : Int) (col : Nat)
    (hrow : 0 ≤ row_ptr) (hcol : col < 7) :
    from_fen_loop (c :: cs) idx b row_ptr col
      = from_fen_loop cs (idx + c.utf8Size) (board_set b row_ptr.toNat col sq) row_ptr
          (col + 1) := by
  simp only [from_fen_loop, hp]
  rw [if_neg (by omega), if_pos hcol]

/-- One parser transition on an in-range digit: jump the column pointer. -/
theorem loop_jump_step {c : Char} {n : Nat} (hp : parse_fen_char c = .JumpCol n)
    (cs : List Char) (idx : Nat) (b : Board) (row_ptr : Int) (col : Nat)
    (hrow : 0 ≤ row_ptr) (hcol : col + n ≤ 7) :
    from_fen_loop (c :: cs) idx b row_ptr col
      = from_fen_loop cs (idx + c.utf8Size) b row_ptr (col + n) := by
  simp only [from_fen_loop, hp]
  rw [if_neg (by omega), if_neg (by omega)]

/-- One parser transition on a slash at a full row: next rank down. -/
theorem loop_slash_step (cs : List Char) (idx : Nat) (b : Board) (row_ptr : Int)
    (hrow : 1 ≤ row_ptr) :
    from_fen_loop ('/' :: cs) idx b row_ptr 7
      = from_fen_loop cs (idx + Char.utf8Size '/') b (row_ptr - 1) 0 := by
  have hp : parse_fen_char '/' = .SkipRow := rfl
  simp only [from_fen_loop, hp]
  rw [if_neg (by omega), if_pos trivial, if_neg (by omega)]

/-- Congruence of the parse loop in the board and column arguments. -/
theorem loop_congr (cs : List Char) (idx : Nat) {b1 b2 : Board} (hb : b1 = b2)
    (r : Int) {c1 c2 : Nat} (h : c1 = c2) :
    from_fen_loop cs idx b1 r c1 = from_fen_loop cs idx b2 r c2 := by
  rw [hb, h]

/-- Parsing the run-length encoding of one rank's squares writes exactly
those squares and moves the column pointer past them. -/
theorem parse_encode_row :
    ∀ (sqs : List SquareContent) (count col : Nat) (b : Board) (row_ptr : Int)
      (rest : List Char) (idx : Nat),
      0 ≤ row_ptr →
      col + count + sqs.length ≤ 7 →
      ∃ idx2, from_fen_loop (encode_row_aux sqs count ++ rest) idx b row_ptr col
        = from_fen_loop rest idx2 (write_row b row_ptr.toNat (col + count) sqs) row_ptr
            (col + count + sqs.length) := by
  intro sqs
  induction sqs with
  | nil =>
    intro count col b row_ptr rest idx hrow hbound
    by_cases hc : count = 0
    · subst hc
      exact ⟨idx, by simp [encode_row_aux, write_row]⟩
    · obtain ⟨ch, hch, hparse⟩ := parse_digit count (by omega) (by omega)
      refine ⟨idx + ch.utf8Size, ?_⟩
      simp only [encode_row_aux, if_pos (Nat.pos_of_ne_zero hc), hch, List.cons_append,
        List.nil_append]
      rw [loop_jump_step hparse _ _ _ _ _ hrow (by simp at hbound; omega)]
      exact loop_congr _ _ (by simp [write_row]) _ (by simp)
  | cons sq rest2 ih =>
    intro count col b row_ptr rest idx hrow hbound
    by_cases hsq : sq = SquareContent.Empty
    · subst hsq
      obtain ⟨idx2, heq⟩ := ih (count + 1) col b row_ptr rest idx hrow
        (by simp only [List.length_cons] at hbound; omega)
      rw [show col + (count + 1) = col + count + 1 by omega] at heq
      refine ⟨idx2, ?_⟩
      rw [show encode_row_aux (SquareContent.Empty :: rest2) count
            = encode_row_aux rest2 (count + 1) from rfl]
      rw [heq]
      refine loop_congr _ _ ?_ _ ?_
      · rw [show write_row b row_ptr.toNat (col + count) (SquareContent.Empty :: rest2)
              = write_row b row_ptr.toNat (col + count + 1) rest2 by simp [write_row]]
      · simp only [List.length_cons]
        omega
    · have hchar := fen_char_spec sq hsq
      by_cases hc : count = 0
      · subst hc
        obtain ⟨idx2, heq⟩ := ih 0 (col + 1) (board_set b row_ptr.toNat col sq) row_ptr rest
          (idx + sq.as_fen_char.utf8Size) hrow
          (by simp only [List.length_cons] at hbound; omega)
        rw [show col + 1 + 0 = col + 1 from rfl] at heq
        refine ⟨idx2, ?_⟩
        rw [show encode_row_aux (sq :: rest2) 0
              = sq.as_fen_char :: encode_row_aux rest2 0 by simp [encode_row_aux, hsq]]
        rw [List.cons_append,
          loop_square_step hchar _ _ _ _ _ hrow
            (by simp only [List.length_cons] at hbound; omega)]
        rw [heq]
        refine loop_congr _ _ ?_ _ ?_
        · rw [show write_row b row_ptr.toNat (col + 0) (sq :: rest2)
                = write_row (board_set b row_ptr.toNat col sq) row_ptr.toNat (col + 1) rest2
              by simp [write_row, hsq]]
        · simp only [List.length_cons]
          omega
      · obtain ⟨ch, hch, hparse⟩ := parse_digit count (by omega) (by omega)
        obtain ⟨idx2, heq⟩ := ih 0 (col + count + 1)
          (board_set b row_ptr.toNat (col + count) sq) row_ptr rest
          (idx + ch.utf8Size + sq.as_fen_char.utf8Size) hrow
          (by simp only [List.length_cons] at hbound; omega)
        rw [show col + count + 1 + 0 = col + count + 1 from rfl] at heq
        refine ⟨idx2, ?_⟩
        rw [show encode_row_aux (sq :: rest2) count
              = ch :: sq.as_fen_char :: encode_row_aux rest2 0
            by simp [encode_row_aux, hsq, if_pos (Nat.pos_of_ne_zero hc), hch]]
        rw [List.cons_append, List.cons_append,
          loop_jump_step hparse _ _ _ _ _ hrow
            (by simp only [List.length_cons] at hbound; omega),
          loop_square_step hchar _ _ _ _ _ hrow
            (by simp only [List.length_cons] at hbound; omega)]
        rw [heq]
        refine loop_congr _ _ ?_ _ ?_
        · rw [show write_row b row_ptr.toNat (col + count) (sq :: rest2)
                = write_row (board_set b row_ptr.toNat (col + count) sq) row_ptr.toNat
                    (col + count + 1) rest2
              by simp [write_row, hsq]]
        · simp only [List.length_cons]
          omega

/-- Pointwise description of writing one encoded rank onto the board. -/
theorem write_row_get :
    ∀ (sqs : List SquareContent) (b : Board) (r c : Nat) (i : Fin 9) (j : Fin 7),
      write_row b r c sqs i j =
        if i.val = r ∧ c ≤ j.val ∧ j.val < c + sqs.length ∧
            sqs.getD (j.val - c) .Empty ≠ .Empty
        then sqs.getD (j.val - c) .Empty else b i j := by
  intro sqs
  induction sqs with
  | nil =>
    intro b r c i j
    rw [show write_row b r c [] = b from rfl, if_neg (by simp)]
  | cons sq rest ih =>
    intro b r c i j
    rw [show write_row b r c (sq :: rest)
          = write_row (if sq = .Empty then b else board_set b r c sq) r (c + 1) rest from rfl]
    rw [ih]
    have hbase : ¬(i.val = r ∧ j.val = c) →
        (if sq = SquareContent.Empty then b else board_set b r c sq) i j = b i j := by
      intro hne
      by_cases hsq : sq = SquareContent.Empty
      · rw [if_pos hsq]
      · rw [if_neg hsq]
        simp only [board_set]
        rw [if_neg hne]
    rcases Nat.lt_trichotomy j.val c with hj | hj | hj
    · have h1 : ¬(i.val = r ∧ c + 1 ≤ j.val ∧ j.val < c + 1 + rest.length ∧
          rest.getD (j.val - (c + 1)) SquareContent.Empty ≠ SquareContent.Empty) :=
        fun h => absurd h.2.1 (by omega)
      have h2 : ¬(i.val = r ∧ c ≤ j.val ∧ j.val < c + (sq :: rest).length ∧
          (sq :: rest).getD (j.val - c) SquareContent.Empty ≠ SquareContent.Empty) :=
        fun h => absurd h.2.1 (by omega)
      rw [if_neg h1, if_neg h2, hbase (fun h => absurd h.2 (by omega))]
    · have h1 : ¬(i.val = r ∧ c + 1 ≤ j.val ∧ j.val < c + 1 + rest.length ∧
          rest.getD (j.val - (c + 1)) SquareContent.Empty ≠ SquareContent.Empty) :=
        fun h => absurd h.2.1 (by omega)
      rw [if_neg h1]
      by_cases hi : i.val = r
      · by_cases hsq : sq = SquareContent.Empty
        · have h2 : ¬(i.val = r ∧ c ≤ j.val ∧ j.val < c + (sq :: rest).length ∧
              (sq :: rest).getD (j.val - c) SquareContent.Empty ≠ SquareContent.Empty) := by
            rw [show j.val - c = 0 by omega]
            simp [hsq]
          rw [if_neg h2, if_pos hsq]
        · have h2 : i.val = r ∧ c ≤ j.val ∧ j.val < c + (sq :: rest).length ∧
              (sq :: rest).getD (j.val - c) SquareContent.Empty ≠ SquareContent.Empty :=
            ⟨hi, by omega, by simp only [List.length_cons]; omega,
              by rw [show j.val - c = 0 by omega]; simpa using hsq⟩
          rw [if_pos h2, if_neg hsq, show j.val - c = 0 by omega]
          simp only [List.getD_cons_zero, board_set]
          rw [if_pos ⟨hi, hj⟩]
      · have h2 : ¬(i.val = r ∧ c ≤ j.val ∧ j.val < c + (sq :: rest).length ∧
            (sq :: rest).getD (j.val - c) SquareContent.Empty ≠ SquareContent.Empty) :=
          fun h => absurd h.1 hi
        rw [if_neg h2, hbase (fun h => absurd h.1 hi)]
    · rw [show j.val - c = (j.val - (c + 1)) + 1 by omega]
      simp only [List.getD_cons_succ, List.length_cons]
      by_cases hcond : i.val = r ∧ c + 1 ≤ j.val ∧ j.val < c + 1 + rest.length ∧
          rest.getD (j.val - (c + 1)) SquareContent.Empty ≠ SquareContent.Empty
      · rw [if_pos hcond, if_pos (show i.val = r ∧ c ≤ j.val ∧ j.val < c + (rest.length + 1) ∧
          rest.getD (j.val - (c + 1)) SquareContent.Empty ≠ SquareContent.Empty from
          ⟨hcond.1, by omega, by omega, hcond.2.2.2⟩)]
      · have h2 : ¬(i.val = r ∧ c ≤ j.val ∧ j.val < c + (rest.length + 1) ∧
            rest.getD (j.val - (c + 1)) SquareContent.Empty ≠ SquareContent.Empty) :=
          fun h => hcond ⟨h.1, by omega, by omega, h.2.2.2⟩
        rw [if_neg hcond, if_neg h2, hbase (fun h => absurd h.2 (by omega))]

/-- A rank read through `get_content` has the 7 board files. -/
theorem row_list2_length (g : Game) (r : Nat) : (row_list2 g r).length = 7 := by
  simp [row_list2]

/-- Indexing a rank read through `get_content`. -/
theorem row_list2_getD (g : Game) (r : Nat) (j : Fin 7) :
    (row_list2 g r).getD j.val .Empty = get_content g ⟨r, j.val⟩ := by
  fin_cases j <;> rfl

/-- Parsing the encoded ranks `r` down to `0` onto a board whose ranks up
to `r` are empty reproduces those ranks of the encoded position. -/
theorem parse_fen_tail (g : Game) :
    ∀ (r : Nat), r ≤ 8 → ∀ (b : Board) (idx : Nat),
      (∀ (i : Fin 9) (j : Fin 7), i.val ≤ r → b i j = .Empty) →
      ∃ g2, from_fen_loop (fen_tail_chars g r) idx b (r : Int) 0 = .ok g2 ∧
        g2.current_player = .Light ∧
        ∀ (i : Fin 9) (j : Fin 7),
          g2.board i j = if i.val ≤ r then get_content g ⟨i.val, j.val⟩ else b i j := by
  intro r
  induction r with
  | zero =>
    intro _ b idx hb
    obtain ⟨idx2, heq⟩ := parse_encode_row (row_list2 g 0) 0 0 b 0
      [] idx (by omega) (by rw [row_list2_length])
    rw [show fen_tail_chars g 0 = encode_row_aux (row_list2 g 0) 0 ++ [] by
      simp [fen_tail_chars]]
    simp only [Nat.cast_zero]
    rw [heq]
    refine ⟨⟨write_row b (0 : Int).toNat (0 + 0) (row_list2 g 0), .Light⟩, rfl, rfl, ?_⟩
    intro i j
    show write_row b (0 : Int).toNat (0 + 0) (row_list2 g 0) i j
      = if i.val ≤ 0 then get_content g ⟨i.val, j.val⟩ else b i j
    rw [show (0 : Int).toNat = 0 from rfl, write_row_get]
    by_cases hi : i.val = 0
    · rw [if_pos (show i.val ≤ 0 by omega)]
      by_cases hsq : (row_list2 g 0).getD (j.val - (0 + 0)) .Empty = .Empty
      · rw [if_neg (show ¬(i.val = 0 ∧ 0 + 0 ≤ j.val ∧
            j.val < 0 + 0 + (row_list2 g 0).length ∧
            (row_list2 g 0).getD (j.val - (0 + 0)) .Empty ≠ .Empty)
            from fun h => h.2.2.2 hsq)]
        rw [hb i j (by omega)]
        rw [show j.val - (0 + 0) = j.val by omega, row_list2_getD] at hsq
        rw [← hi] at hsq
        exact hsq.symm
      · rw [if_pos (show i.val = 0 ∧ 0 + 0 ≤ j.val ∧
            j.val < 0 + 0 + (row_list2 g 0).length ∧
            (row_list2 g 0).getD (j.val - (0 + 0)) .Empty ≠ .Empty
            from ⟨hi, by omega, by rw [row_list2_length]; omega, hsq⟩)]
        rw [show j.val - (0 + 0) = j.val by omega, row_list2_getD, ← hi]
    · rw [if_neg (show ¬ i.val ≤ 0 by omega)]
      rw [if_neg (show ¬(i.val = 0 ∧ 0 + 0 ≤ j.val ∧
          j.val < 0 + 0 + (row_list2 g 0).length ∧
          (row_list2 g 0).getD (j.val - (0 + 0)) .Empty ≠ .Empty)
          from fun h => absurd h.1 hi)]
  | succ r ih =>
    intro hr b idx hb
    obtain ⟨idx2, heq⟩ := parse_encode_row (row_list2 g (r + 1)) 0 0 b ((r + 1 : Nat) : Int)
      ('/' :: fen_tail_chars g r) idx (by positivity) (by rw [row_list2_length])
    rw [show fen_tail_chars g (r + 1)
        = encode_row_aux (row_list2 g (r + 1)) 0 ++ '/' :: fen_tail_chars g r from rfl]
    rw [heq]
    rw [show (0 + 0 + (row_list2 g (r + 1)).length) = 7 by rw [row_list2_length]]
    rw [loop_slash_step _ _ _ _ (by omega)]
    rw [show ((r + 1 : Nat) : Int) - 1 = ((r : Nat) : Int) by push_cast; ring]
    have hb2 : ∀ (i : Fin 9) (j : Fin 7), i.val ≤ r →
        write_row b ((r + 1 : Nat) : Int).toNat (0 + 0) (row_list2 g (r + 1)) i j
          = .Empty := by
      intro i j hi
      rw [show ((r + 1 : Nat) : Int).toNat = r + 1 by simp]
      rw [write_row_get, if_neg (show ¬(i.val = r + 1 ∧ 0 + 0 ≤ j.val ∧
          j.val < 0 + 0 + (row_list2 g (r + 1)).length ∧
          (row_list2 g (r + 1)).getD (j.val - (0 + 0)) .Empty ≠ .Empty)
          from fun h => absurd h.1 (by omega))]
      exact hb i j (by omega)
    obtain ⟨g2, heq2, hpl, hboard⟩ := ih (by omega)
      (write_row b ((r + 1 : Nat) : Int).toNat (0 + 0) (row_list2 g (r + 1)))
      (idx2 + Char.utf8Size '/') hb2
    refine ⟨g2, heq2, hpl, ?_⟩
    intro i j
    rw [hboard i j]
    rcases Nat.lt_trichotomy i.val (r + 1) with hi | hi | hi
    · rw [if_pos (show i.val ≤ r by omega), if_pos (show i.val ≤ r + 1 by omega)]
    · rw [if_neg (show ¬ i.val ≤ r by omega), if_pos (show i.val ≤ r + 1 by omega)]
      rw [show ((r + 1 : Nat) : Int).toNat = r + 1 by simp]
      rw [write_row_get]
      by_cases hsq : (row_list2 g (r + 1)).getD (j.val - (0 + 0)) .Empty = .Empty
      · rw [if_neg (show ¬(i.val = r + 1 ∧ 0 + 0 ≤ j.val ∧
            j.val < 0 + 0 + (row_list2 g (r + 1)).length ∧
            (row_list2 g (r + 1)).getD (j.val - (0 + 0)) .Empty ≠ .Empty)
            from fun h => h.2.2.2 hsq)]
        rw [hb i j (by omega)]
        rw [show j.val - (0 + 0) = j.val by omega, row_list2_getD] at hsq
        rw [← hi] at hsq
        exact hsq.symm
      · rw [if_pos (show i.val = r + 1 ∧ 0 + 0 ≤ j.val ∧
            j.val < 0 + 0 + (row_list2 g (r + 1)).length ∧
            (row_list2 g (r + 1)).getD (j.val - (0 + 0)) .Empty ≠ .Empty
            from ⟨hi, by omega, by rw [row_list2_length]; omega, hsq⟩)]
        rw [show j.val - (0 + 0) = j.val by omega, row_list2_getD, ← hi]
    · rw [if_neg (show ¬ i.val ≤ r by omega), if_neg (show ¬ i.val ≤ r + 1 by omega)]
      rw [show ((r + 1 : Nat) : Int).toNat = r + 1 by simp]
      rw [write_row_get, if_neg (show ¬(i.val = r + 1 ∧ 0 + 0 ≤ j.val ∧
          j.val < 0 + 0 + (row_list2 g (r + 1)).length ∧
          (row_list2 g (r + 1)).getD (j.val - (0 + 0)) .Empty ≠ .Empty)
          from fun h => absurd h.1 (by omega))]

/-- The two rank readers agree. -/
theorem row_list_eq (g : Game) (r : Fin 9) : row_list g r = row_list2 g r.val := by
  fin_cases r <;> rfl

/-- The characters `as_fen` emits are the slash-separated encodings of
ranks 8 down to 0. -/
theorem as_fen_chars_eq (g : Game) : as_fen_chars g = fen_tail_chars g 8 := by
  have h2 : ∀ (l : List Char), (l ++ ['/']).dropLast = l := fun l => List.dropLast_concat
  have h1 : (List.finRange 9).reverse = [8, 7, 6, 5, 4, 3, 2, 1, 0] := by decide
  rw [as_fen_chars, h1]
  simp only [List.foldl_cons, List.foldl_nil, List.nil_append, row_list_eq]
  simp only [fen_tail_chars, List.append_assoc, List.cons_append, List.nil_append]
  rw [show ((8 : Fin 9) : Nat) = 8 from rfl, show ((7 : Fin 9) : Nat) = 7 from rfl,
    show ((6 : Fin 9) : Nat) = 6 from rfl, show ((5 : Fin 9) : Nat) = 5 from rfl,
    show ((4 : Fin 9) : Nat) = 4 from rfl, show ((3 : Fin 9) : Nat) = 3 from rfl,
    show ((2 : Fin 9) : Nat) = 2 from rfl, show ((1 : Fin 9) : Nat) = 1 from rfl,
    show ((0 : Fin 9) : Nat) = 0 from rfl]
  norm_num
  set a0 := encode_row_aux (row_list2 g 0) 0
  set a1 := encode_row_aux (row_list2 g 1) 0
  set a2 := encode_row_aux (row_list2 g 2) 0
  set a3 := encode_row_aux (row_list2 g 3) 0
  set a4 := encode_row_aux (row_list2 g 4) 0
  set a5 := encode_row_aux (row_list2 g 5) 0
  set a6 := encode_row_aux (row_list2 g 6) 0
  set a7 := encode_row_aux (row_list2 g 7) 0
  set a8 := encode_row_aux (row_list2 g 8) 0
  rw [show a8 ++ '/' :: (a7 ++ '/' :: (a6 ++ '/' :: (a5 ++ '/' :: (a4 ++ '/' :: (a3 ++
      '/' :: (a2 ++ '/' :: (a1 ++ '/' :: (a0 ++ ['/']))))))))
      = (a8 ++ '/' :: (a7 ++ '/' :: (a6 ++ '/' :: (a5 ++ '/' :: (a4 ++ '/' :: (a3 ++
      '/' :: (a2 ++ '/' :: (a1 ++ '/' :: a0)))))))) ++ ['/']
    by simp [List.append_assoc]]
  rw [h2]

/-- Full round trip: decoding the encoding of any position succeeds and
reproduces its board square for square, with the player reset to Light. -/
theorem from_fen_as_fen (g : Game) :
    ∃ q, from_fen (as_fen g) = .ok q ∧ q.current_player = .Light ∧
      ∀ (i : Fin 9) (j : Fin 7), q.board i j = g.board i j := by
  obtain ⟨q, heq, hpl, hboard⟩ := parse_fen_tail g 8 (by omega) empty_board 0
    (fun _ _ _ => rfl)
  refine ⟨q, ?_, hpl, ?_⟩
  · have hfen : from_fen (as_fen g) = from_fen_loop (as_fen_chars g) 0 empty_board 8 0 := by
      simp only [from_fen, as_fen]
    rw [hfen, as_fen_chars_eq]
    rw [show ((8 : Nat) : Int) = (8 : Int) by norm_num] at heq
    exact heq
  · intro i j
    rw [hboard i j, if_pos (by omega)]
    simp only [get_content, dif_pos (show i.val < 9 ∧ j.val < 7 from ⟨i.isLt, j.isLt⟩)]

/-- C5: for every string accepted by `from_fen`, encoding the resulting
position with `as_fen` and decoding again succeeds and yields a position
whose 9×7 board equals the original square for square. -/
theorem c5_round_trip_fen (s : String) (p : Game) (_h : from_fen s = .ok p) :
    ∃ q, from_fen (as_fen p) = .ok q ∧
      ∀ (i : Fin 9) (j : Fin 7), q.board i j = p.board i j := by
  obtain ⟨q, hq, _, hboard⟩ := from_fen_as_fen p
  exact ⟨q, hq, hboard⟩

/-- Witness for C5 at the canonical start FEN string. -/
theorem c5_round_trip_fen_witness :
    ∃ q, from_fen (as_fen game_new) = .ok q ∧
      ∀ (i : Fin 9) (j : Fin 7), q.board i j = game_new.board i j :=
  c5_round_trip_fen INITIAL_FEN_STRING game_new rfl

end Barragoon
